import Mathlib

/-!
Shallow embedding of the timing / compositing core of the video pipeline:
`services/sync_service.py` (SyncService.assign_timings),
`services/video_service.py` (VideoAssemblyService._xfade, _trim_pad and the
post-mux drift warning), `visual_engine/motion.py` (MOTION_PRESETS,
MotionEngine.render_animated_clip, _build_motion_filter) and
`visual_engine/sfx.py` (SFXEngine.generate_sfx).

Machine floats are modelled as exact rationals; the fixed-point decimal
formatting the code applies when serializing numbers into filter expressions
is modelled explicitly by `round_to`.
-/

/-- Fixed-point decimal rounding to `p` places, modelling the Python
format specifier that serializes a float with `p` digits after the point
(`%.4f`, `%.8f`); `round` is round-half-up, which agrees with the float
formatting on every value appearing in this development. -/
def round_to (p : ℕ) (x : ℚ) : ℚ :=
  ((round (x * 10 ^ p) : ℤ) : ℚ) / 10 ^ p

/-! ## Data model (`utils/models.py`)

Only the fields the timing core reads are embedded. `AudioChunk` keeps
`section_id`, `start_time` and `duration_seconds`; `VisualAsset` keeps
`section_id` and `asset_type`. A `TimedAsset` is a `VisualAsset` whose
mutable `display_start` / `display_end` fields have been assigned. -/

structure AudioChunk where
  section_id : String
  start_time : ℚ
  duration_seconds : ℚ
deriving DecidableEq

structure VisualAsset where
  section_id : String
  asset_type : String
deriving DecidableEq

structure TimedAsset where
  section_id : String
  asset_type : String
  display_start : ℚ
  display_end : ℚ
deriving DecidableEq

/-! ## SyncService.assign_timings (`services/sync_service.py`) -/

/-- The timing map `section_id → (start_time, start_time + duration_seconds)`
built from the audio chunks. The Python code fills a dict in list order, so a
later chunk with the same section id overwrites an earlier one; the fold
reproduces that last-write-wins behaviour. -/
def timing_map (chunks : List AudioChunk) (sid : String) : Option (ℚ × ℚ) :=
  chunks.foldl
    (fun acc c =>
      if c.section_id = sid then some (c.start_time, c.start_time + c.duration_seconds)
      else acc)
    none

/-- Keys of a Python dict filled by `setdefault` in iteration order: the
distinct elements of `l` in order of first occurrence. -/
def first_keys : List String → List String
  | [] => []
  | s :: rest => s :: (first_keys rest).filter (fun t => !(t == s))

/-- Per-section body of the `assign_timings` loop: given the section's
timing window `[section_start, section_end)` and the section's asset group,
title cards get `[section_start, section_start + title_duration)` with
`title_duration = min 3 (0.2 * section_duration)`, screenshots evenly
partition the remainder, and when there are no screenshots the title cards
are instead extended to `section_end` (the Python code mutates the already
appended title cards in that branch). -/
def section_assign (section_start section_end : ℚ) (assets : List VisualAsset) :
    List TimedAsset :=
  let section_duration := section_end - section_start
  let title_cards := assets.filter (fun a => a.asset_type == "title_card")
  let screenshots := assets.filter (fun a => a.asset_type == "screenshot")
  let title_duration := min 3 (section_duration * (2 / 10))
  if screenshots.isEmpty then
    title_cards.map (fun tc => ⟨tc.section_id, tc.asset_type, section_start, section_end⟩)
  else
    title_cards.map
      (fun tc => ⟨tc.section_id, tc.asset_type, section_start,
        section_start + title_duration⟩)
    ++ screenshots.enum.map
      (fun p =>
        let content_start := section_start + title_duration
        let per := (section_end - content_start) / screenshots.length
        ⟨p.2.section_id, p.2.asset_type, content_start + p.1 * per,
          content_start + (p.1 + 1) * per⟩)

/-- One section's contribution to the assigned list: empty when the section
has no timing entry (the loop logs and `continue`s), otherwise the
per-section assignment applied to the assets grouped under that id. -/
def section_part (chunks : List AudioChunk) (assets : List VisualAsset)
    (sid : String) : List TimedAsset :=
  match timing_map chunks sid with
  | none => []
  | some se => section_assign se.1 se.2 (assets.filter (fun a => a.section_id == sid))

/-- The `assigned` list right before the final sort: sections in dict
insertion order (first occurrence of each section id among the assets), each
contributing its `section_part`. -/
def assign_all (chunks : List AudioChunk) (assets : List VisualAsset) :
    List TimedAsset :=
  (first_keys (assets.map (fun a => a.section_id))).flatMap
    (section_part chunks assets)

/-- Comparison used by the final `assigned.sort(key=lambda a: a.display_start)`. -/
def assign_le (a b : TimedAsset) : Bool :=
  decide (a.display_start ≤ b.display_start)

/-- `SyncService.assign_timings`: group assets by section, assign windows per
section from the audio-derived timing map, and return the result sorted by
`display_start` (Python `list.sort` is a stable merge sort). -/
def assign_timings (chunks : List AudioChunk) (assets : List VisualAsset) :
    List TimedAsset :=
  (assign_all chunks assets).mergeSort assign_le

/-- Section ids for which the loop hits the `section_id not in timing_map`
branch and emits its warning log, in processing order. -/
def missing_sections (chunks : List AudioChunk) (assets : List VisualAsset) :
    List String :=
  (first_keys (assets.map (fun a => a.section_id))).filter
    (fun sid => (timing_map chunks sid).isNone)

/-- Display windows that `assign_timings` gives to the assets of one section,
in output order. -/
def section_windows (chunks : List AudioChunk) (assets : List VisualAsset)
    (sid : String) : List (ℚ × ℚ) :=
  ((assign_timings chunks assets).filter (fun a => a.section_id == sid)).map
    (fun a => (a.display_start, a.display_end))

/-- Union of a list of half-open display windows, as a set of time points. -/
def union_Ico (ws : List (ℚ × ℚ)) : Set ℚ :=
  {x | ∃ w ∈ ws, w.1 ≤ x ∧ x < w.2}

/-- The per-section window invariant claimed by the spec: windows listed in
nondecreasing order of start, pairwise non-overlapping, and covering exactly
`[s, e)`. -/
def windows_spec (ws : List (ℚ × ℚ)) (s e : ℚ) : Prop :=
  (ws.map Prod.fst).Sorted (· ≤ ·) ∧
  ws.Pairwise (fun u v => u.2 ≤ v.1 ∨ v.2 ≤ u.1) ∧
  union_Ico ws = Set.Ico s e

/-! ## VideoAssemblyService (`services/video_service.py`) -/

/-- Accumulator of `_xfade`'s offset loop: starting from the running value
`cum`, each clip duration `d` (of all clips but the last) contributes the
next offset `cum + d - td`. -/
def xfade_aux (td : ℚ) : ℚ → List ℚ → List ℚ
  | _, [] => []
  | cum, d :: ds => (cum + d - td) :: xfade_aux td (cum + d - td) ds

/-- Offsets of the xfade transitions emitted by
`VideoAssemblyService._xfade` for clips of the given durations and
transition duration `td`. A single clip is copied directly and produces no
transition; otherwise iteration `i = 1 .. n-1` emits offset
`cum += durs[i-1] - td`. -/
def xfade_offsets (durs : List ℚ) (td : ℚ) : List ℚ :=
  match durs with
  | [] => []
  | [_] => []
  | _ => xfade_aux td 0 durs.dropLast

/-- Outcome of `VideoAssemblyService._trim_pad`: copy the track unchanged,
hard-trim it to the target duration, or clone-pad the final frame for the
given stop duration. -/
inductive TrimPadAction where
  | copy : TrimPadAction
  | trim : ℚ → TrimPadAction
  | pad : ℚ → TrimPadAction
deriving DecidableEq

/-- `VideoAssemblyService._trim_pad` decision on a track of duration
`actual` against duration `target`. -/
def trim_pad (actual target : ℚ) : TrimPadAction :=
  if |actual - target| < 1 / 10 then TrimPadAction.copy
  else if actual > target then TrimPadAction.trim target
  else TrimPadAction.pad (target - actual)

/-- Whether `VideoAssemblyService.assemble` logs the post-mux sync-drift
warning: quality checks must be enabled and the probed drift
`|actual - target|` must exceed the configured threshold. -/
def drift_warning (quality_checks : Bool) (actual target threshold : ℚ) : Bool :=
  quality_checks && decide (|actual - target| > threshold)

/-! ## MotionEngine (`visual_engine/motion.py`) -/

/-- One entry of `MOTION_PRESETS`. -/
structure MotionPreset where
  zoom_start : ℚ
  zoom_end : ℚ
  pan_x_start : ℚ
  pan_x_end : ℚ
  pan_y_start : ℚ
  pan_y_end : ℚ
deriving DecidableEq

def slow_push_in : MotionPreset := ⟨1, 108 / 100, 0, 0, 0, 0⟩

def slow_pull_out : MotionPreset := ⟨108 / 100, 1, 0, 0, 0, 0⟩

def drift_left : MotionPreset := ⟨105 / 100, 105 / 100, 30, -30, 0, 0⟩

def drift_right : MotionPreset := ⟨105 / 100, 105 / 100, -30, 30, 0, 0⟩

def diagonal_float : MotionPreset := ⟨103 / 100, 108 / 100, -20, 20, -15, 15⟩

def pendulum_sway : MotionPreset := ⟨102 / 100, 102 / 100, -15, 15, 0, 0⟩

def static_preset : MotionPreset := ⟨1, 1, 0, 0, 0, 0⟩

/-- The `MOTION_PRESETS` table. -/
def motion_presets : List (String × MotionPreset) :=
  [("slow_push_in", slow_push_in),
   ("slow_pull_out", slow_pull_out),
   ("drift_left", drift_left),
   ("drift_right", drift_right),
   ("diagonal_float", diagonal_float),
   ("pendulum_sway", pendulum_sway),
   ("static", static_preset)]

/-- Dict lookup in `MOTION_PRESETS`. -/
def motion_preset_for (name : String) : Option MotionPreset :=
  (motion_presets.find? (fun p => p.1 == name)).map (fun p => p.2)

/-- `total_frames = max(1, int(duration * fps))` from
`_build_motion_filter`; Python `int` truncation agrees with `floor.toNat`
under the outer `max 1` for every rational input. -/
def total_frames (duration : ℚ) (fps : ℕ) : ℕ :=
  max 1 (Int.floor (duration * fps)).toNat

/-- The intensity-scaled effective end zoom
`ze' = zoom_start + (zoom_end - zoom_start) * intensity`. -/
def effective_zoom_end (pr : MotionPreset) (intensity : ℚ) : ℚ :=
  pr.zoom_start + (pr.zoom_end - pr.zoom_start) * intensity

/-- Zoom value the `zoompan` expression built by `_build_motion_filter`
evaluates to at frame `n`: the constant `zoom_start` (serialized at 4
decimals) when the intensity-scaled range is below `0.001`, otherwise
`zoom_start` plus `n` times the per-frame increment
`(ze' - zoom_start) / total_frames` (serialized at 8 decimals). -/
def zoom_at_frame (pr : MotionPreset) (duration : ℚ) (fps : ℕ)
    (intensity : ℚ) (n : ℕ) : ℚ :=
  let tf := total_frames duration fps
  let zs := pr.zoom_start
  let ze := effective_zoom_end pr intensity
  if |ze - zs| < 1 / 1000 then round_to 4 zs
  else round_to 4 zs + round_to 8 ((ze - zs) / tf) * n

/-- `motion = motion if motion in MOTION_PRESETS else "slow_push_in"` in
`render_animated_clip`. -/
def resolve_motion (m : String) : String :=
  if (motion_preset_for m).isSome then m else "slow_push_in"

/-- Observable outcome of one `render_animated_clip` call over an abstract
file-system state (the list of existing output paths): the resulting state,
the number of external compositing invocations performed, the returned path,
and the motion preset actually used to build the filter (`none` when the
cached early return fired and no filter was built). -/
structure RenderCall where
  fs : List String
  calls : ℕ
  ret : String
  used : Option MotionPreset
deriving DecidableEq

/-- `MotionEngine.render_animated_clip`: if `output_path` already exists it
returns immediately; otherwise it resolves the motion name (unknown names
fall back to `"slow_push_in"`), runs one FFmpeg invocation, and on a
non-zero exit (`ffmpeg_ok = false`) runs the static-fallback invocation as
well; the output path is returned in every case. -/
def render_animated_clip (fs : List String) (output_path motion : String)
    (ffmpeg_ok : Bool) : RenderCall :=
  if output_path ∈ fs then
    ⟨fs, 0, output_path, none⟩
  else
    ⟨output_path :: fs, if ffmpeg_ok then 1 else 2, output_path,
      motion_preset_for (resolve_motion motion)⟩

/-! ## SFXEngine.generate_sfx (`visual_engine/sfx.py`) -/

/-- Names of the cues in `SFX_LIBRARY` (the lavfi filter strings and
durations are opaque payloads handed to the external process and are not
needed by the embedded claims). -/
def sfx_library_names : List String :=
  ["whoosh_soft", "whoosh_sharp", "glitch_burst", "film_click",
   "impact_thud", "power_up", "swoosh",
   "typing_tick", "counter_tick", "scan_beep", "notification_ping",
   "hum_tech", "light_static"]

/-- Cached output path `self.sfx_dir / f"{sfx_name}.wav"`. -/
def sfx_path (sfx_dir sfx_name : String) : String :=
  sfx_dir ++ "/" ++ sfx_name ++ ".wav"

/-- Observable outcome of one `generate_sfx` call: resulting file-system
state, number of external invocations, and returned path (`none` models the
Python `None` returned for unknown cues or failed generation). -/
structure SfxCall where
  fs : List String
  calls : ℕ
  ret : Option String
deriving DecidableEq

/-- `SFXEngine.generate_sfx`: return the cached file if it exists, return
`none` for a cue name outside the library, otherwise run one FFmpeg
invocation which on success materializes the file and on failure returns
`none`. -/
def generate_sfx (fs : List String) (sfx_dir sfx_name : String)
    (ffmpeg_ok : Bool) : SfxCall :=
  let out := sfx_path sfx_dir sfx_name
  if out ∈ fs then ⟨fs, 0, some out⟩
  else if sfx_name ∈ sfx_library_names then
    (if ffmpeg_ok then ⟨out :: fs, 1, some out⟩ else ⟨fs, 1, none⟩)
  else ⟨fs, 0, none⟩

theorem xfade_aux_eq (td : ℚ) (ds : List ℚ) : ∀ c : ℚ,
    xfade_aux td c ds =
      (List.range ds.length).map
        (fun j => c + (ds.take (j + 1)).sum - (j + 1) * td) := by
  induction ds with
  | nil => intro c; simp [xfade_aux]
  | cons d ds ih =>
      intro c
      rw [List.length_cons, List.range_succ_eq_map]
      simp only [xfade_aux, ih, List.map_cons, List.map_map]
      congr 1
      · simp
      · apply List.map_congr_left
        intro j hj
        simp [Function.comp, List.take_succ_cons]
        ring

theorem xfade_offsets_eq (durs : List ℚ) (td : ℚ) :
    xfade_offsets durs td =
      (List.range (durs.length - 1)).map
        (fun j => (durs.take (j + 1)).sum - (j + 1) * td) := by
  match durs with
  | [] => simp [xfade_offsets]
  | [d] => simp [xfade_offsets]
  | d1 :: d2 :: rest =>
      show xfade_aux td 0 _ = _
      rw [xfade_aux_eq, List.length_dropLast]
      apply List.map_congr_left
      intro j hj
      rw [List.mem_range] at hj
      rw [List.dropLast_eq_take, List.take_take]
      have hm : min (j + 1) ((d1 :: d2 :: rest).length - 1) = j + 1 :=
        min_eq_left (by omega)
      rw [hm]
      ring

/-- Claim C2 (amended): transitions for clips 5s,5s,5s with td = 0.5 occur at
offsets 4.5 and 9.0 (not 8.5), and in general the i-th transition's offset is
the sum of the first i clip durations minus i times td. -/
theorem xfade_offset_rule :
    xfade_offsets [5, 5, 5] (1 / 2) = [9 / 2, 9] ∧
    ∀ (durs : List ℚ) (td : ℚ),
      xfade_offsets durs td =
        (List.range (durs.length - 1)).map
          (fun j => (durs.take (j + 1)).sum - (j + 1) * td) := by
  constructor
  · norm_num [xfade_offsets, xfade_aux]
  · exact xfade_offsets_eq

/-- Claim C2, counterexample: the second transition offset for 5s,5s,5s with
td = 0.5 is 9.0, not the 8.5 the claim states. -/
theorem xfade_offset_claim_false :
    xfade_offsets [5, 5, 5] (1 / 2) ≠ [9 / 2, 17 / 2] := by
  norm_num [xfade_offsets, xfade_aux]

/-- Claim C3 (amended): the post-mux drift warning fires exactly when quality
checks are enabled and |actual - target| exceeds the threshold; with target
60s and threshold 1s it therefore fires both at actual 61.3s (drift 1.3) and
at actual 58.5s (drift 1.5). -/
theorem drift_warning_rule :
    (∀ (qc : Bool) (actual target threshold : ℚ),
      drift_warning qc actual target threshold = true ↔
        qc = true ∧ |actual - target| > threshold) ∧
    drift_warning true (613 / 10) 60 1 = true ∧
    drift_warning true (117 / 2) 60 1 = true := by
  refine ⟨fun qc a t th => by simp [drift_warning], ?_, ?_⟩
  · simp only [drift_warning, Bool.true_and, decide_eq_true_eq]
    rw [show (613 / 10 - 60 : ℚ) = 13 / 10 by norm_num,
      abs_of_nonneg (by norm_num : (0:ℚ) ≤ 13 / 10)]
    norm_num
  · simp only [drift_warning, Bool.true_and, decide_eq_true_eq]
    rw [show (117 / 2 - 60 : ℚ) = -(3 / 2) by norm_num, abs_neg,
      abs_of_nonneg (by norm_num : (0:ℚ) ≤ 3 / 2)]
    norm_num

/-- Claim C3, counterexample: with quality checks enabled, actual duration
61.3s, target 60.0s and threshold 1.0s, the code does emit the drift warning
(drift 1.3 > 1.0), contradicting the claimed "no warning". -/
theorem drift_warning_at_61_3 :
    drift_warning true (613 / 10) 60 1 = true := by
  simp only [drift_warning, Bool.true_and, decide_eq_true_eq]
  rw [show (613 / 10 - 60 : ℚ) = 13 / 10 by norm_num,
    abs_of_nonneg (by norm_num : (0:ℚ) ≤ 13 / 10)]
  norm_num

/-- Claim C6: duration correction uses the track unchanged when within 0.1s
of the target, hard-trims to the target when too long, and clone-pads by
exactly the gap when too short. -/
theorem trim_pad_cases (actual target : ℚ) :
    (|actual - target| < 1 / 10 → trim_pad actual target = TrimPadAction.copy) ∧
    (¬ |actual - target| < 1 / 10 → actual > target →
      trim_pad actual target = TrimPadAction.trim target) ∧
    (¬ |actual - target| < 1 / 10 → actual < target →
      trim_pad actual target = TrimPadAction.pad (target - actual)) := by
  refine ⟨fun h => ?_, fun h h2 => ?_, fun h h2 => ?_⟩
  · unfold trim_pad
    rw [if_pos h]
  · unfold trim_pad
    rw [if_neg h, if_pos h2]
  · unfold trim_pad
    rw [if_neg h, if_neg (not_lt.mpr h2.le)]

/-- Claim C6, witness: a 5s track against a 10s target is clone-padded by 5s. -/
theorem trim_pad_cases_witness : trim_pad 5 10 = TrimPadAction.pad 5 := by
  have h := (trim_pad_cases 5 10).2.2 (by norm_num) (by norm_num)
  norm_num at h
  exact h

/-- Claim C8: with the cached output file already present, a second
invocation of `render_animated_clip` or `generate_sfx` performs no external
invocation, leaves the file system unchanged, and returns the same output
file reference as the first invocation. -/
theorem cached_stage_idempotent (fs : List String) (out m m2 : String)
    (ok ok2 : Bool) (fs2 : List String) (dir name : String) (ok3 ok4 : Bool)
    (hsfx : sfx_path dir name ∈ fs2) :
    render_animated_clip (render_animated_clip fs out m ok).fs out m2 ok2 =
      ⟨(render_animated_clip fs out m ok).fs, 0,
        (render_animated_clip fs out m ok).ret, none⟩ ∧
    generate_sfx (generate_sfx fs2 dir name ok3).fs dir name ok4 =
      ⟨(generate_sfx fs2 dir name ok3).fs, 0,
        (generate_sfx fs2 dir name ok3).ret⟩ := by
  constructor
  · by_cases h : out ∈ fs
    · simp [render_animated_clip, h]
    · simp [render_animated_clip, h]
  · simp [generate_sfx, hsfx]

/-- Claim C8, witness: concrete second calls with a cached
`d/whoosh_soft.wav` and a cached `o.mp4`. -/
theorem cached_stage_idempotent_witness :
    render_animated_clip
        (render_animated_clip ["o.mp4"] "o.mp4" "drift_left" true).fs
        "o.mp4" "drift_left" true =
      ⟨(render_animated_clip ["o.mp4"] "o.mp4" "drift_left" true).fs, 0,
        (render_animated_clip ["o.mp4"] "o.mp4" "drift_left" true).ret, none⟩ ∧
    generate_sfx
        (generate_sfx ["d/whoosh_soft.wav"] "d" "whoosh_soft" true).fs
        "d" "whoosh_soft" true =
      ⟨(generate_sfx ["d/whoosh_soft.wav"] "d" "whoosh_soft" true).fs, 0,
        (generate_sfx ["d/whoosh_soft.wav"] "d" "whoosh_soft" true).ret⟩ :=
  cached_stage_idempotent ["o.mp4"] "o.mp4" "drift_left" "drift_left"
    true true ["d/whoosh_soft.wav"] "d" "whoosh_soft" true true
    (by simp [sfx_path])

/-- Claim C10: a motion name outside `MOTION_PRESETS` is silently replaced
by `"slow_push_in"`, and an uncached `render_animated_clip` call then builds
its filter from the `slow_push_in` preset and still returns the requested
output path. -/
theorem unknown_motion_uses_slow_push_in (m : String)
    (hm : m ∉ motion_presets.map Prod.fst) (fs : List String) (out : String)
    (ok : Bool) (hout : out ∉ fs) :
    resolve_motion m = "slow_push_in" ∧
    (render_animated_clip fs out m ok).used = some slow_push_in ∧
    (render_animated_clip fs out m ok).ret = out := by
  have hfind : motion_preset_for m = none := by
    rw [motion_preset_for, List.find?_eq_none.mpr]
    · rfl
    · intro p hp
      simp only [beq_iff_eq]
      intro hpe
      exact hm (List.mem_map.mpr ⟨p, hp, hpe⟩)
  have hres : resolve_motion m = "slow_push_in" := by
    rw [resolve_motion, hfind]
    rfl
  have hslow : motion_preset_for "slow_push_in" = some slow_push_in := rfl
  refine ⟨hres, ?_, ?_⟩
  · simp [render_animated_clip, hout, hres, hslow]
  · simp [render_animated_clip, hout]

/-- Claim C10, witness: the unknown motion name "bogus" on an uncached
output renders with the `slow_push_in` preset. -/
theorem unknown_motion_uses_slow_push_in_witness :
    resolve_motion "bogus" = "slow_push_in" ∧
    (render_animated_clip [] "o.mp4" "bogus" true).used = some slow_push_in ∧
    (render_animated_clip [] "o.mp4" "bogus" true).ret = "o.mp4" :=
  unknown_motion_uses_slow_push_in "bogus" (by simp [motion_presets])
    [] "o.mp4" true (by simp)

theorem round_to_sub_le (p : ℕ) (x : ℚ) :
    |round_to p x - x| ≤ 1 / (2 * 10 ^ p) := by
  have h10 : (0:ℚ) < 10 ^ p := by positivity
  have h : round_to p x - x = ((round (x * 10 ^ p) : ℚ) - x * 10 ^ p) / 10 ^ p := by
    field_simp [round_to]
    ring
  rw [h, abs_div, abs_of_pos h10]
  rw [div_le_div_iff₀ h10 (by positivity)]
  have hb := abs_sub_round (x * 10 ^ p)
  rw [abs_sub_comm] at hb
  nlinarith [hb]

theorem round_to_zoom_start (pr : MotionPreset)
    (hp : pr ∈ motion_presets.map Prod.snd) :
    round_to 4 pr.zoom_start = pr.zoom_start := by
  simp only [motion_presets, List.map_cons, List.map_nil, List.mem_cons,
    List.not_mem_nil, or_false] at hp
  rcases hp with h | h | h | h | h | h | h <;> subst h <;>
    norm_num [slow_push_in, slow_pull_out, drift_left, drift_right,
      diagonal_float, pendulum_sway, static_preset, round_to, round_eq]

/-- Claim C4: for every motion preset the emitted zoom is the constant
`zoom_start` when the intensity-scaled zoom range is below 0.001, and
otherwise agrees with the linear interpolation
`zoom_start + ((ze' - zoom_start) / total_frames) * n` up to the 8-decimal
serialization error; for `slow_push_in` at intensity 0.5 over 3s at 30fps,
`zoom(0) = 1` and `zoom(89)` is within 0.001 of 1.0396. -/
theorem zoom_at_frame_linear (pr : MotionPreset)
    (hp : pr ∈ motion_presets.map Prod.snd)
    (duration : ℚ) (fps : ℕ) (intensity : ℚ) (n : ℕ) :
    (|effective_zoom_end pr intensity - pr.zoom_start| < 1 / 1000 →
      zoom_at_frame pr duration fps intensity n = pr.zoom_start) ∧
    (¬ |effective_zoom_end pr intensity - pr.zoom_start| < 1 / 1000 →
      |zoom_at_frame pr duration fps intensity n -
          (pr.zoom_start +
            (effective_zoom_end pr intensity - pr.zoom_start) /
              (total_frames duration fps) * n)| ≤ n / (2 * 10 ^ 8)) ∧
    zoom_at_frame slow_push_in 3 30 (1 / 2) 0 = 1 ∧
    |zoom_at_frame slow_push_in 3 30 (1 / 2) 89 - 10396 / 10000| < 1 / 1000 := by
  have hzs := round_to_zoom_start pr hp
  refine ⟨fun h => ?_, fun h => ?_, ?_, ?_⟩
  · rw [zoom_at_frame]
    simp only [if_pos h, hzs]
  · rw [zoom_at_frame]
    simp only [if_neg h, hzs]
    have hkey : pr.zoom_start +
        round_to 8 ((effective_zoom_end pr intensity - pr.zoom_start) /
          (total_frames duration fps)) * n -
        (pr.zoom_start +
          (effective_zoom_end pr intensity - pr.zoom_start) /
            (total_frames duration fps) * n) =
        (round_to 8 ((effective_zoom_end pr intensity - pr.zoom_start) /
          (total_frames duration fps)) -
          (effective_zoom_end pr intensity - pr.zoom_start) /
            (total_frames duration fps)) * n := by ring
    rw [hkey, abs_mul, Nat.abs_cast]
    calc |round_to 8 _ - _| * (n:ℚ) ≤ (1 / (2 * 10 ^ 8)) * n := by
          apply mul_le_mul_of_nonneg_right (round_to_sub_le 8 _)
          positivity
      _ = n / (2 * 10 ^ 8) := by ring
  · have htf : total_frames 3 30 = 90 := by
      norm_num [total_frames]
      rfl
    rw [zoom_at_frame]
    norm_num [effective_zoom_end, slow_push_in, htf, round_to, round_eq]
  · have htf : total_frames 3 30 = 90 := by
      norm_num [total_frames]
      rfl
    rw [zoom_at_frame]
    norm_num [effective_zoom_end, slow_push_in, htf, round_to, round_eq]
    have hc : ¬ |(1:ℚ) / 25| < 1 / 1000 := by
      rw [abs_of_nonneg (by norm_num : (0:ℚ) ≤ 1 / 25)]
      norm_num
    rw [if_neg hc,
      show (25988879 / 25000000 - 2599 / 2500 : ℚ) = -(1121 / 25000000) by
        norm_num,
      abs_neg, abs_of_nonneg (by norm_num : (0:ℚ) ≤ 1121 / 25000000)]
    norm_num

/-- Claim C4, witness. -/
theorem zoom_at_frame_linear_witness :
    zoom_at_frame slow_push_in 3 30 (1 / 2) 0 = 1 :=
  (zoom_at_frame_linear slow_push_in (by simp [motion_presets]) 3 30
    (1 / 2) 0).2.2.1

/-! Structural lemmas about `assign_timings` -/

theorem mem_first_keys (a : String) (l : List String) :
    a ∈ first_keys l ↔ a ∈ l := by
  induction l with
  | nil => simp [first_keys]
  | cons s rest ih =>
      simp only [first_keys, List.mem_cons, List.mem_filter, ih,
        Bool.not_eq_eq_eq_not, Bool.not_true, beq_eq_false_iff_ne, ne_eq]
      constructor
      · rintro (h | ⟨h, _⟩)
        · exact Or.inl h
        · exact Or.inr h
      · rintro (h | h)
        · exact Or.inl h
        · by_cases hs : a = s
          · exact Or.inl hs
          · exact Or.inr ⟨h, hs⟩

theorem nodup_first_keys (l : List String) : (first_keys l).Nodup := by
  induction l with
  | nil => simp [first_keys]
  | cons s rest ih =>
      rw [first_keys]
      refine List.Nodup.cons ?_ (ih.filter _)
      intro hmem
      rcases List.mem_filter.mp hmem with ⟨_, hne⟩
      simp at hne

theorem mem_section_assign (s e : ℚ) (g : List VisualAsset) (t : TimedAsset)
    (ht : t ∈ section_assign s e g) :
    ∃ a ∈ g, t.section_id = a.section_id ∧ t.asset_type = a.asset_type := by
  rw [section_assign] at ht
  by_cases hscr : (g.filter (fun a => a.asset_type == "screenshot")).isEmpty
  · rw [if_pos hscr] at ht
    rcases List.mem_map.mp ht with ⟨a, ha, rfl⟩
    exact ⟨a, (List.mem_filter.mp ha).1, rfl, rfl⟩
  · rw [if_neg hscr] at ht
    rcases List.mem_append.mp ht with h | h
    · rcases List.mem_map.mp h with ⟨a, ha, rfl⟩
      exact ⟨a, (List.mem_filter.mp ha).1, rfl, rfl⟩
    · rcases List.mem_map.mp h with ⟨p, hp, rfl⟩
      rcases p with ⟨i, a⟩
      rcases List.mem_enum hp with ⟨hi, hae⟩
      have ha : a ∈ g.filter (fun a => a.asset_type == "screenshot") := by
        rw [hae]
        exact List.getElem_mem hi
      exact ⟨a, (List.mem_filter.mp ha).1, rfl, rfl⟩

theorem mem_section_part (chunks : List AudioChunk) (assets : List VisualAsset)
    (sid : String) (t : TimedAsset) (ht : t ∈ section_part chunks assets sid) :
    t.section_id = sid := by
  rw [section_part] at ht
  cases hmap : timing_map chunks sid with
  | none => rw [hmap] at ht; simp at ht
  | some se =>
      rw [hmap] at ht
      rcases mem_section_assign se.1 se.2 _ t ht with ⟨a, ha, hid, _⟩
      have := (List.mem_filter.mp ha).2
      rw [beq_iff_eq] at this
      rw [hid, this]

theorem filter_flatMap {α β : Type} (l : List α) (f : α → List β)
    (p : β → Bool) :
    (l.flatMap f).filter p = l.flatMap (fun x => (f x).filter p) := by
  induction l with
  | nil => simp
  | cons a l ih => simp [List.flatMap_cons, List.filter_append, ih]

theorem section_part_filter (chunks : List AudioChunk)
    (assets : List VisualAsset) (x sid : String) :
    (section_part chunks assets x).filter (fun a => a.section_id == sid) =
      if x = sid then section_part chunks assets sid else [] := by
  by_cases hx : x = sid
  · subst hx
    rw [if_pos rfl]
    exact List.filter_eq_self.mpr
      (fun t ht => beq_iff_eq.mpr (mem_section_part chunks assets x t ht))
  · rw [if_neg hx]
    refine List.filter_eq_nil_iff.mpr (fun t ht h => ?_)
    rw [beq_iff_eq] at h
    exact hx ((mem_section_part chunks assets x t ht) ▸ h)

theorem flatMap_single {α : Type} [DecidableEq α] {β : Type}
    (ks : List α) (sid : α) (f : α → List β)
    (hnd : ks.Nodup) (hmem : sid ∈ ks) :
    (ks.flatMap (fun x => if x = sid then f sid else [])) = f sid := by
  induction ks with
  | nil => simp at hmem
  | cons k ks ih =>
      rw [List.flatMap_cons]
      rcases List.nodup_cons.mp hnd with ⟨hk, hnd2⟩
      by_cases hks : k = sid
      · subst hks
        rw [if_pos rfl, List.flatMap_eq_nil_iff.mpr, List.append_nil]
        intro x hx
        rw [if_neg]
        intro hxe
        exact hk (hxe ▸ hx)
      · rw [if_neg hks, List.nil_append]
        rcases List.mem_cons.mp hmem with h | h
        · exact absurd h.symm hks
        · exact ih hnd2 h

theorem assign_all_filter (chunks : List AudioChunk)
    (assets : List VisualAsset) (sid : String)
    (hmem : sid ∈ assets.map (fun a => a.section_id)) :
    (assign_all chunks assets).filter (fun a => a.section_id == sid) =
      section_part chunks assets sid := by
  rw [assign_all, filter_flatMap]
  have h1 : ∀ x, (section_part chunks assets x).filter
      (fun a => a.section_id == sid) =
      if x = sid then section_part chunks assets sid else [] :=
    fun x => section_part_filter chunks assets x sid
  calc (first_keys (assets.map fun a => a.section_id)).flatMap
        (fun x => (section_part chunks assets x).filter
          (fun a => a.section_id == sid))
      = (first_keys (assets.map fun a => a.section_id)).flatMap
        (fun x => if x = sid then section_part chunks assets sid else []) := by
        apply List.flatMap_congr
        exact fun x _ => h1 x
    _ = section_part chunks assets sid :=
        flatMap_single _ sid _ (nodup_first_keys _)
          ((mem_first_keys sid _).mpr hmem)

theorem assign_le_trans (a b c : TimedAsset) (h1 : assign_le a b = true)
    (h2 : assign_le b c = true) : assign_le a c = true := by
  simp only [assign_le, decide_eq_true_eq] at *
  exact le_trans h1 h2

theorem assign_le_total (a b : TimedAsset) :
    (assign_le a b || assign_le b a) = true := by
  simp only [assign_le, Bool.or_eq_true, decide_eq_true_eq]
  exact le_total _ _

theorem assign_timings_perm (chunks : List AudioChunk)
    (assets : List VisualAsset) :
    (assign_timings chunks assets).Perm (assign_all chunks assets) :=
  List.mergeSort_perm _ _

theorem assign_timings_sorted (chunks : List AudioChunk)
    (assets : List VisualAsset) :
    (assign_timings chunks assets).Pairwise
      (fun a b => a.display_start ≤ b.display_start) := by
  have h := List.sorted_mergeSort assign_le_trans assign_le_total
    (assign_all chunks assets)
  exact h.imp (fun hab => by
    simpa [assign_le, decide_eq_true_eq] using hab)

theorem union_Ico_nil : union_Ico [] = ∅ := by
  simp [union_Ico]

theorem union_Ico_cons (w : ℚ × ℚ) (ws : List (ℚ × ℚ)) :
    union_Ico (w :: ws) = Set.Ico w.1 w.2 ∪ union_Ico ws := by
  ext x
  simp only [union_Ico, Set.mem_setOf_eq, List.mem_cons, Set.mem_union,
    Set.mem_Ico]
  constructor
  · rintro ⟨v, (rfl | hv), hx⟩
    · exact Or.inl hx
    · exact Or.inr ⟨v, hv, hx⟩
  · rintro (hx | ⟨v, hv, hx⟩)
    · exact ⟨w, Or.inl rfl, hx⟩
    · exact ⟨v, Or.inr hv, hx⟩

theorem union_Ico_append (l1 l2 : List (ℚ × ℚ)) :
    union_Ico (l1 ++ l2) = union_Ico l1 ∪ union_Ico l2 := by
  induction l1 with
  | nil => simp [union_Ico_nil]
  | cons w ws ih =>
      rw [List.cons_append, union_Ico_cons, ih, union_Ico_cons,
        Set.union_assoc]

theorem union_Ico_perm (l1 l2 : List (ℚ × ℚ)) (h : l1.Perm l2) :
    union_Ico l1 = union_Ico l2 := by
  ext x
  simp only [union_Ico, Set.mem_setOf_eq]
  constructor
  · rintro ⟨w, hw, hx⟩
    exact ⟨w, h.mem_iff.mp hw, hx⟩
  · rintro ⟨w, hw, hx⟩
    exact ⟨w, h.mem_iff.mpr hw, hx⟩

theorem union_Ico_range (n : ℕ) (c per : ℚ) (hper : 0 ≤ per) :
    union_Ico ((List.range n).map
      (fun i : ℕ => (c + (i : ℚ) * per, c + ((i : ℚ) + 1) * per))) =
      Set.Ico c (c + n * per) := by
  induction n with
  | zero => simp [union_Ico_nil]
  | succ n ih =>
      rw [List.range_succ, List.map_append, union_Ico_append, ih]
      simp only [List.map_cons, List.map_nil, union_Ico_cons, union_Ico_nil,
        Set.union_empty]
      rw [Set.Ico_union_Ico_eq_Ico]
      · push_cast
        ring_nf
      · nlinarith
      · nlinarith [hper, Nat.cast_nonneg (α := ℚ) n]

theorem title_dur_bounds (s e : ℚ) (hse : s ≤ e) :
    0 ≤ min 3 ((e - s) * (2 / 10)) ∧ s + min 3 ((e - s) * (2 / 10)) ≤ e := by
  constructor
  · exact le_min (by norm_num) (by nlinarith)
  · have h1 : min 3 ((e - s) * (2 / 10)) ≤ (e - s) * (2 / 10) :=
      min_le_right _ _
    nlinarith

theorem pairwise_disj_cons_range (sP c per : ℚ) (n : ℕ)
    (hper : 0 ≤ per) :
    List.Pairwise (fun u v : ℚ × ℚ => u.2 ≤ v.1 ∨ v.2 ≤ u.1)
      ((sP, c) :: (List.range n).map
        (fun i : ℕ => (c + (i : ℚ) * per, c + ((i : ℚ) + 1) * per))) := by
  refine List.Pairwise.cons ?_ ?_
  · intro w hw
    rcases List.mem_map.mp hw with ⟨i, _, rfl⟩
    left
    have h0 : (0:ℚ) ≤ (i : ℚ) * per := mul_nonneg (Nat.cast_nonneg i) hper
    simp only
    linarith
  · rw [List.pairwise_map]
    refine (List.pairwise_lt_range n).imp ?_
    intro i j hij
    left
    simp only
    have hij2 : ((i : ℚ) + 1) ≤ (j : ℚ) := by exact_mod_cast hij
    nlinarith

theorem union_cons_range (sP c per : ℚ) (n : ℕ)
    (hsc : sP ≤ c) (hper : 0 ≤ per) :
    union_Ico ((sP, c) :: (List.range n).map
      (fun i : ℕ => (c + (i : ℚ) * per, c + ((i : ℚ) + 1) * per))) =
      Set.Ico sP (c + n * per) := by
  rw [union_Ico_cons, union_Ico_range n c per hper]
  exact Set.Ico_union_Ico_eq_Ico hsc
    (by nlinarith [Nat.cast_nonneg (α := ℚ) n])

theorem map_enum_eq_map_range {α β : Type} (l : List α) (F : ℕ × α → β)
    (G : ℕ → β) (hF : ∀ p, F p = G p.1) :
    l.enum.map F = (List.range l.length).map G := by
  rw [List.enum_eq_zip_range]
  calc ((List.range l.length).zip l).map F
      = ((List.range l.length).zip l).map (fun p => G p.1) := by
        apply List.map_congr_left
        intro p _
        exact hF p
    _ = (((List.range l.length).zip l).map Prod.fst).map G := by
        rw [List.map_map]
        rfl
    _ = (List.range l.length).map G := by
        rw [List.map_fst_zip _ _ (by simp)]


theorem section_assign_windows (s e : ℚ) (g : List VisualAsset)
    (tc : VisualAsset)
    (htc : g.filter (fun a => a.asset_type == "title_card") = [tc]) :
    (section_assign s e g).map (fun a => (a.display_start, a.display_end)) =
      if (g.filter (fun a => a.asset_type == "screenshot")).isEmpty then
        [(s, e)]
      else
        (s, s + min 3 ((e - s) * (2 / 10))) ::
        (List.range (g.filter (fun a => a.asset_type == "screenshot")).length).map
          (fun i : ℕ =>
            (s + min 3 ((e - s) * (2 / 10)) + (i : ℚ) *
              ((e - (s + min 3 ((e - s) * (2 / 10)))) /
                (g.filter (fun a => a.asset_type == "screenshot")).length),
             s + min 3 ((e - s) * (2 / 10)) + ((i : ℚ) + 1) *
              ((e - (s + min 3 ((e - s) * (2 / 10)))) /
                (g.filter (fun a => a.asset_type == "screenshot")).length))) := by
  by_cases hscr : (g.filter (fun a => a.asset_type == "screenshot")).isEmpty = true
  · rw [if_pos hscr, section_assign]
    rw [if_pos hscr, htc]
    simp
  · rw [if_neg hscr, section_assign]
    rw [if_neg hscr, htc]
    simp only [List.map_cons, List.map_nil, List.map_append, List.map_map,
      Function.comp_apply, List.singleton_append]
    congr 1
    exact map_enum_eq_map_range _ _ _ (fun p => rfl)

/-- Claim C1 (amended): for a section with a timing entry `[s, e)` whose
assets contain exactly one title card, the assigned windows are sorted by
start, pairwise non-overlapping, and tile `[s, e)` exactly. -/
theorem tile_end (c e n : ℚ) (hn : n ≠ 0) : c + n * ((e - c) / n) = e := by
  field_simp

theorem assign_timings_section_tiling (chunks : List AudioChunk)
    (assets : List VisualAsset) (sid : String) (s e : ℚ) (hse : s ≤ e)
    (htm : timing_map chunks sid = some (s, e))
    (hone : ((assets.filter (fun a => a.section_id == sid)).filter
      (fun a => a.asset_type == "title_card")).length = 1) :
    windows_spec (section_windows chunks assets sid) s e := by
  obtain ⟨tc, htc⟩ := List.length_eq_one.mp hone
  have htc_mem : tc ∈ (assets.filter (fun a => a.section_id == sid)).filter
      (fun a => a.asset_type == "title_card") := by
    rw [htc]
    exact List.mem_singleton_self tc
  have hsidmem : sid ∈ assets.map (fun a => a.section_id) := by
    have h1 := (List.mem_filter.mp htc_mem).1
    have h2 := List.mem_filter.mp h1
    exact List.mem_map.mpr ⟨tc, h2.1, beq_iff_eq.mp h2.2⟩
  have hfil : (assign_all chunks assets).filter
      (fun a => a.section_id == sid) =
      section_assign s e (assets.filter (fun a => a.section_id == sid)) := by
    rw [assign_all_filter chunks assets sid hsidmem, section_part, htm]
  have hperm : (section_windows chunks assets sid).Perm
      ((section_assign s e
        (assets.filter (fun a => a.section_id == sid))).map
        (fun a => (a.display_start, a.display_end))) := by
    rw [section_windows, ← hfil]
    exact ((assign_timings_perm chunks assets).filter _).map _
  have hbounds := title_dur_bounds s e hse
  have hwin := section_assign_windows s e
    (assets.filter (fun a => a.section_id == sid)) tc htc
  refine ⟨?_, ?_, ?_⟩
  · rw [section_windows, List.map_map]
    have hs := assign_timings_sorted chunks assets
    have hp : List.Pairwise
        (fun a b : TimedAsset => a.display_start ≤ b.display_start)
        ((assign_timings chunks assets).filter
          (fun a => a.section_id == sid)) :=
      List.Pairwise.sublist (List.filter_sublist _) hs
    exact List.pairwise_map.mpr hp
  · rw [List.Perm.pairwise_iff (fun h => h.symm) hperm, hwin]
    by_cases hscr : ((assets.filter (fun a => a.section_id == sid)).filter
        (fun a => a.asset_type == "screenshot")).isEmpty = true
    · rw [if_pos hscr]
      simp
    · rw [if_neg hscr]
      exact pairwise_disj_cons_range s _ _ _
        (div_nonneg (by linarith [hbounds.2]) (Nat.cast_nonneg _))
  · rw [union_Ico_perm _ _ hperm, hwin]
    by_cases hscr : ((assets.filter (fun a => a.section_id == sid)).filter
        (fun a => a.asset_type == "screenshot")).isEmpty = true
    · rw [if_pos hscr, union_Ico_cons, union_Ico_nil, Set.union_empty]
    · rw [if_neg hscr,
        union_cons_range s _ _ _ (by linarith [hbounds.1])
          (div_nonneg (by linarith [hbounds.2]) (Nat.cast_nonneg _))]
      have hn : (((assets.filter (fun a => a.section_id == sid)).filter
          (fun a => a.asset_type == "screenshot")).length : ℚ) ≠ 0 := by
        intro hc
        apply hscr
        rw [List.isEmpty_iff_length_eq_zero]
        exact_mod_cast hc
      rw [tile_end _ e _ hn]

/-- Claim C1, witness: section "s" over `[0, 10)` with one title card and one
screenshot satisfies the tiling invariant. -/
theorem assign_timings_section_tiling_witness :
    windows_spec (section_windows [⟨"s", 0, 10⟩]
      [⟨"s", "title_card"⟩, ⟨"s", "screenshot"⟩] "s") 0 10 :=
  assign_timings_section_tiling [⟨"s", 0, 10⟩]
    [⟨"s", "title_card"⟩, ⟨"s", "screenshot"⟩] "s" 0 10
    (by norm_num) (by norm_num [timing_map]) (by rfl)

/-- Claim C1, counterexample: a section over `[0, 10)` whose only asset is a
screenshot (no title card) gets the single window `[2, 10)`, leaving
`[0, 2)` uncovered, so the claimed tiling invariant fails for sections with
screenshots but no title card. -/
theorem assign_timings_section_tiling_counterexample :
    ¬ windows_spec (section_windows [⟨"s1", 0, 10⟩]
      [⟨"s1", "screenshot"⟩] "s1") 0 10 := by
  have hw : section_windows [⟨"s1", 0, 10⟩] [⟨"s1", "screenshot"⟩] "s1" =
      [(2, 10)] := by
    norm_num [section_windows, assign_timings, assign_all, section_part,
      timing_map, first_keys, section_assign, List.mergeSort_singleton,
      List.enum, List.filter_cons, List.filter_nil,
      (show ¬"screenshot" = "title_card" by decide),
      (show ("s1" == "s1") = true by rfl)]
  rw [hw]
  rintro ⟨-, -, hu⟩
  have h0 : (0:ℚ) ∈ Set.Ico (0:ℚ) 10 := by
    rw [Set.mem_Ico]
    norm_num
  rw [← hu] at h0
  rcases h0 with ⟨w, hwmem, h1, h2⟩
  rcases List.mem_singleton.mp hwmem with rfl
  norm_num at h1

theorem enum_snd_mem {α : Type} (l : List α) (p : ℕ × α) (hp : p ∈ l.enum) :
    p.2 ∈ l := by
  rcases p with ⟨i, a⟩
  rcases List.mem_enum hp with ⟨hi, hae⟩
  rw [hae]
  exact List.getElem_mem hi

theorem mem_assign_timings_decomp (chunks : List AudioChunk)
    (assets : List VisualAsset) (a : TimedAsset)
    (ha : a ∈ assign_timings chunks assets) :
    ∃ sid ∈ first_keys (assets.map (fun x => x.section_id)),
      a ∈ section_part chunks assets sid :=
  List.mem_flatMap.mp ((assign_timings_perm chunks assets).mem_iff.mp ha)

theorem mem_section_assign_type (s e : ℚ) (g : List VisualAsset)
    (t : TimedAsset) (ht : t ∈ section_assign s e g) :
    t.asset_type = "title_card" ∨ t.asset_type = "screenshot" := by
  rw [section_assign] at ht
  by_cases hscr : (g.filter (fun a => a.asset_type == "screenshot")).isEmpty
    = true
  · rw [if_pos hscr] at ht
    rcases List.mem_map.mp ht with ⟨x, hx, rfl⟩
    exact Or.inl (beq_iff_eq.mp (List.mem_filter.mp hx).2)
  · rw [if_neg hscr] at ht
    rcases List.mem_append.mp ht with h | h
    · rcases List.mem_map.mp h with ⟨x, hx, rfl⟩
      exact Or.inl (beq_iff_eq.mp (List.mem_filter.mp hx).2)
    · rcases List.mem_map.mp h with ⟨p, hp, rfl⟩
      exact Or.inr (beq_iff_eq.mp
        (List.mem_filter.mp (enum_snd_mem _ p hp)).2)

/-- Claim C9: every asset in the output of `assign_timings` is a title card
or a screenshot; assets of any other type (e.g. "generated") are dropped. -/
theorem assign_timings_output_types (chunks : List AudioChunk)
    (assets : List VisualAsset) :
    ∀ a ∈ assign_timings chunks assets,
      a.asset_type = "title_card" ∨ a.asset_type = "screenshot" := by
  intro a ha
  rcases mem_assign_timings_decomp chunks assets a ha with ⟨sid, _, hpart⟩
  rw [section_part] at hpart
  cases hmap : timing_map chunks sid with
  | none => rw [hmap] at hpart; simp at hpart
  | some se =>
      rw [hmap] at hpart
      exact mem_section_assign_type se.1 se.2 _ a hpart

/-- Claim C9, witness. -/
theorem assign_timings_output_types_witness :
    (⟨"s", "title_card", 0, 10⟩ : TimedAsset).asset_type = "title_card" ∨
    (⟨"s", "title_card", 0, 10⟩ : TimedAsset).asset_type = "screenshot" :=
  assign_timings_output_types [⟨"s", 0, 10⟩] [⟨"s", "title_card"⟩]
    ⟨"s", "title_card", 0, 10⟩
    (by norm_num [assign_timings, assign_all, section_part, timing_map,
      first_keys, section_assign, List.mergeSort_singleton,
      List.filter_cons, List.filter_nil,
      (show ¬"title_card" = "screenshot" by decide)])

/-- Claim C5: a title card of a section with timing window `[s, e)` is shown
from `section_start` with duration `min 3 (0.2 * section_duration)`, except
that with no screenshots in the section its window extends to the section
end. -/
theorem title_card_window (chunks : List AudioChunk)
    (assets : List VisualAsset) (sid : String) (s e : ℚ) (a : TimedAsset)
    (htm : timing_map chunks sid = some (s, e))
    (ha : a ∈ assign_timings chunks assets)
    (hid : a.section_id = sid)
    (hty : a.asset_type = "title_card") :
    a.display_start = s ∧
    (((assets.filter (fun x => x.section_id == sid)).filter
        (fun x => x.asset_type == "screenshot")).isEmpty = true →
      a.display_end = e) ∧
    (¬ ((assets.filter (fun x => x.section_id == sid)).filter
        (fun x => x.asset_type == "screenshot")).isEmpty = true →
      a.display_end = s + min 3 ((e - s) * (2 / 10))) := by
  rcases mem_assign_timings_decomp chunks assets a ha with ⟨sid2, _, hpart⟩
  have hsid2 : sid2 = sid := by
    rw [← mem_section_part chunks assets sid2 a hpart, hid]
  subst hsid2
  rw [section_part, htm] at hpart
  have hpart2 : a ∈ section_assign s e
      (assets.filter (fun x => x.section_id == sid2)) := hpart
  rw [section_assign] at hpart2
  by_cases hscr : ((assets.filter (fun x => x.section_id == sid2)).filter
      (fun x => x.asset_type == "screenshot")).isEmpty = true
  · rw [if_pos hscr] at hpart2
    rcases List.mem_map.mp hpart2 with ⟨x, _, rfl⟩
    exact ⟨rfl, fun _ => rfl, fun hc => absurd hscr hc⟩
  · rw [if_neg hscr] at hpart2
    rcases List.mem_append.mp hpart2 with h | h
    · rcases List.mem_map.mp h with ⟨x, _, rfl⟩
      exact ⟨rfl, fun hc => absurd hc hscr, fun _ => rfl⟩
    · rcases List.mem_map.mp h with ⟨p, hp, rfl⟩
      have hty2 : p.2.asset_type = "title_card" := hty
      rw [beq_iff_eq.mp (List.mem_filter.mp (enum_snd_mem _ p hp)).2] at hty2
      exact absurd hty2 (by decide)

/-- Claim C5, witness: a lone title card over section `[0, 10)` is extended
to the whole section. -/
theorem title_card_window_witness :
    (⟨"s", "title_card", 0, 10⟩ : TimedAsset).display_start = 0 ∧
    ((([(⟨"s", "title_card"⟩ : VisualAsset)].filter
        (fun x => x.section_id == "s")).filter
        (fun x => x.asset_type == "screenshot")).isEmpty = true →
      (⟨"s", "title_card", 0, 10⟩ : TimedAsset).display_end = 10) ∧
    (¬ (([(⟨"s", "title_card"⟩ : VisualAsset)].filter
        (fun x => x.section_id == "s")).filter
        (fun x => x.asset_type == "screenshot")).isEmpty = true →
      (⟨"s", "title_card", 0, 10⟩ : TimedAsset).display_end =
        0 + min 3 ((10 - 0) * (2 / 10))) :=
  title_card_window [⟨"s", 0, 10⟩] [⟨"s", "title_card"⟩] "s" 0 10
    ⟨"s", "title_card", 0, 10⟩ (by norm_num [timing_map])
    (by norm_num [assign_timings, assign_all, section_part, timing_map,
      first_keys, section_assign, List.mergeSort_singleton,
      List.filter_cons, List.filter_nil,
      (show ¬"title_card" = "screenshot" by decide)])
    rfl rfl

theorem filter_comm' {α : Type} (p q : α → Bool) (l : List α) :
    (l.filter p).filter q = (l.filter q).filter p := by
  rw [List.filter_filter, List.filter_filter]
  exact List.filter_congr (fun a _ => by rw [Bool.and_comm])

theorem map_section_filter (assets : List VisualAsset) (sid : String) :
    (assets.filter (fun a => !(a.section_id == sid))).map
      (fun a => a.section_id) =
      (assets.map (fun a => a.section_id)).filter (fun t => !(t == sid)) := by
  induction assets with
  | nil => rfl
  | cons a l ih =>
      by_cases h : (a.section_id == sid) = true
      · simp [List.filter_cons, h, ih]
      · rw [Bool.not_eq_true] at h
        simp [List.filter_cons, h, ih]

theorem first_keys_filter (l : List String) (x : String) :
    first_keys (l.filter (fun t => !(t == x))) =
      (first_keys l).filter (fun t => !(t == x)) := by
  induction l with
  | nil => rfl
  | cons s rest ih =>
      by_cases h : s = x
      · subst h
        rw [List.filter_cons]
        simp only [beq_self_eq_true, Bool.not_true, if_neg Bool.false_ne_true]
        rw [ih, first_keys, List.filter_cons]
        simp only [beq_self_eq_true, Bool.not_true, if_neg Bool.false_ne_true]
        rw [List.filter_filter]
        exact (List.filter_congr (fun a _ => by rw [Bool.and_self])).symm
      · rw [List.filter_cons]
        have hb : (!(s == x)) = true := by
          simp [h]
        rw [if_pos hb, first_keys, first_keys, List.filter_cons, if_pos hb,
          ih, filter_comm']

theorem flatMap_filter_absorb {β : Type} (ks : List String) (x : String)
    (f : String → List β) (hf : f x = []) :
    (ks.filter (fun t => !(t == x))).flatMap f = ks.flatMap f := by
  induction ks with
  | nil => rfl
  | cons k ks ih =>
      rw [List.filter_cons]
      by_cases h : k = x
      · subst h
        simp only [beq_self_eq_true, Bool.not_true, if_neg Bool.false_ne_true]
        rw [ih, List.flatMap_cons, hf, List.nil_append]
      · have hb : (!(k == x)) = true := by
          simp [h]
        rw [if_pos hb, List.flatMap_cons, List.flatMap_cons, ih]

theorem group_filter_eq (assets : List VisualAsset) (sid x : String)
    (hx : x ≠ sid) :
    (assets.filter (fun a => !(a.section_id == sid))).filter
      (fun a => a.section_id == x) =
      assets.filter (fun a => a.section_id == x) := by
  rw [List.filter_filter]
  apply List.filter_congr
  intro a _
  by_cases h : a.section_id = x
  · rw [h]
    simp [hx]
  · simp [h]

theorem section_part_filtered (chunks : List AudioChunk)
    (assets : List VisualAsset) (sid x : String) (hx : x ≠ sid) :
    section_part chunks (assets.filter (fun a => !(a.section_id == sid))) x =
      section_part chunks assets x := by
  rw [section_part, section_part, group_filter_eq assets sid x hx]

/-- Claim C7: a section with assets but no matching audio chunk is reported
in the warning log, none of its assets appear in the output, every output
asset belongs to a section with a known timing window, and the remaining
sections are processed exactly as if the orphaned assets were absent. -/
theorem missing_timing_skips (chunks : List AudioChunk)
    (assets : List VisualAsset) (sid : String)
    (hmem : sid ∈ assets.map (fun a => a.section_id))
    (hnone : timing_map chunks sid = none) :
    sid ∈ missing_sections chunks assets ∧
    (∀ a ∈ assign_timings chunks assets, a.section_id ≠ sid) ∧
    (∀ a ∈ assign_timings chunks assets,
      (timing_map chunks a.section_id).isSome = true) ∧
    assign_timings chunks assets =
      assign_timings chunks
        (assets.filter (fun a => !(a.section_id == sid))) := by
  have hparts : section_part chunks assets sid = [] := by
    rw [section_part, hnone]
  refine ⟨?_, ?_, ?_, ?_⟩
  · rw [missing_sections]
    refine List.mem_filter.mpr ⟨(mem_first_keys sid _).mpr hmem, ?_⟩
    rw [hnone]
    rfl
  · intro a ha heq
    rcases mem_assign_timings_decomp chunks assets a ha with ⟨sid2, _, hpart⟩
    have h2 : sid2 = sid := by
      rw [← mem_section_part chunks assets sid2 a hpart, heq]
    rw [h2, hparts] at hpart
    simp at hpart
  · intro a ha
    rcases mem_assign_timings_decomp chunks assets a ha with ⟨sid2, _, hpart⟩
    have hid := mem_section_part chunks assets sid2 a hpart
    rw [section_part] at hpart
    cases hmap : timing_map chunks sid2 with
    | none => rw [hmap] at hpart; simp at hpart
    | some se =>
        rw [hid, hmap]
        rfl
  · rw [assign_timings, assign_timings]
    congr 1
    rw [assign_all, assign_all, map_section_filter, first_keys_filter]
    rw [List.flatMap_congr (fun x hx =>
      section_part_filtered chunks assets sid x
        (by
          rcases List.mem_filter.mp hx with ⟨-, hb⟩
          simp only [Bool.not_eq_eq_eq_not, Bool.not_true,
            beq_eq_false_iff_ne, ne_eq] at hb
          exact hb))]
    exact (flatMap_filter_absorb _ sid _ hparts).symm

/-- Claim C7, witness: with no audio chunks at all, the lone section "x" is
logged as missing and its screenshot is dropped. -/
theorem missing_timing_skips_witness :
    "x" ∈ missing_sections [] [⟨"x", "screenshot"⟩] ∧
    (∀ a ∈ assign_timings [] [⟨"x", "screenshot"⟩], a.section_id ≠ "x") ∧
    (∀ a ∈ assign_timings [] [⟨"x", "screenshot"⟩],
      (timing_map [] a.section_id).isSome = true) ∧
    assign_timings [] [⟨"x", "screenshot"⟩] =
      assign_timings []
        ([(⟨"x", "screenshot"⟩ : VisualAsset)].filter
          (fun a => !(a.section_id == "x"))) :=
  missing_timing_skips [] [⟨"x", "screenshot"⟩] "x" (by simp) rfl
